import Mathlib

/-!
Shallow embedding of the core of `rpm-rebuild-helper` (rpmrh):
the collection pipeline stages (`diff`, `download`, `build`) of
`rpmrh/cli.py`, the dynamic service-type registry of
`rpmrh/configuration/experimental/service.py`, and the capability index
contract exercised by `tests/service/test_configuration.py`.

Python dictionaries are modelled by association lists in which a key is
bound at most once; insertion overwrites in place (keeping the position of
an existing key, appending a fresh key at the end), matching CPython dict
semantics.  Lazy generators driven by the single-pass consumer
(`CollectionSequence.consume`) are modelled by eager list recursion in the
same order the consumer drains them.  The external RPM metadata library is
out of scope of the spec, so the package type is a parameter equipped with
a linear order (its version-comparison ordering) and a `name` projection.
-/

namespace RpmRH

/-! ### Association lists: the dict model -/

/-- Dictionary lookup: first binding of the key, if any. -/
def lookupAssoc {K V : Type} [DecidableEq K] : List (K × V) → K → Option V
  | [], _ => none
  | (k', v) :: rest, k => if k' = k then some v else lookupAssoc rest k

/-- Dictionary insertion `d[k] = v`: overwrite in place, append if fresh. -/
def insertAssoc {K V : Type} [DecidableEq K] (k : K) (v : V) :
    List (K × V) → List (K × V)
  | [] => [(k, v)]
  | (k', v') :: rest =>
    if k' = k then (k, v) :: rest else (k', v') :: insertAssoc k v rest

/-- Dictionary deletion (the mutation performed by `dict.pop`). -/
def eraseKey {K V : Type} [DecidableEq K] (k : K) :
    List (K × V) → List (K × V)
  | [] => []
  | (k', v) :: rest =>
    if k' = k then eraseKey k rest else (k', v) :: eraseKey k rest

theorem lookupAssoc_insertAssoc_self {K V : Type} [DecidableEq K]
    (k : K) (v : V) (m : List (K × V)) :
    lookupAssoc (insertAssoc k v m) k = some v := by
  induction m with
  | nil => simp [insertAssoc, lookupAssoc]
  | cons e rest ih =>
    by_cases h : e.1 = k
    · simp [insertAssoc, h, lookupAssoc]
    · simp [insertAssoc, h, lookupAssoc, ih]

theorem lookupAssoc_insertAssoc_ne {K V : Type} [DecidableEq K]
    {k k' : K} (v : V) (m : List (K × V)) (h : k' ≠ k) :
    lookupAssoc (insertAssoc k' v m) k = lookupAssoc m k := by
  induction m with
  | nil => simp [insertAssoc, lookupAssoc, h]
  | cons e rest ih =>
    by_cases he : e.1 = k'
    · simp [insertAssoc, he, lookupAssoc, h]
    · simp [insertAssoc, he, lookupAssoc, ih]

theorem lookupAssoc_eraseKey_self {K V : Type} [DecidableEq K]
    (k : K) (m : List (K × V)) :
    lookupAssoc (eraseKey k m) k = none := by
  induction m with
  | nil => rfl
  | cons e rest ih =>
    by_cases h : e.1 = k
    · simp [eraseKey, h, ih]
    · simp [eraseKey, h, lookupAssoc, ih]

theorem lookupAssoc_eraseKey_ne {K V : Type} [DecidableEq K]
    {k k' : K} (m : List (K × V)) (h : k' ≠ k) :
    lookupAssoc (eraseKey k' m) k = lookupAssoc m k := by
  induction m with
  | nil => rfl
  | cons e rest ih =>
    by_cases he : e.1 = k'
    · subst he
      simp [eraseKey, lookupAssoc, h, ih]
    · simp [eraseKey, he, lookupAssoc, ih]

/-! ### Data model: `CollectionSequence.Item`

`cli.py` lines 30–45: a collection item carries the EL version, the
collection name and the package sequence; stages replace only the package
sequence (`attr.evolve(scl, package_iter=...)`). -/

/-- `CollectionSequence.Item`: (EL version, collection name, packages). -/
structure Item (P : Type) where
  el : Nat
  collection : String
  package_iter : List P
deriving DecidableEq, Repr

/-! ### The `diff` stage (`cli.py` lines 216–247)

`latest_builds` resolves a group name to a tag via the alias resolver and
capability index and fetches the tag's latest builds; both resolution and
the remote fetch are external collaborators, modelled by the parameter
`latest_builds : String → Item P → List P` (group name and the item's
`attr.asdict` context determine the result). -/

/-- `s.startswith(pfx)`: the Python string prefix test, modelled on the
underlying character lists so it computes by kernel reduction. -/
def strStartsWith (s pfx : String) : Bool :=
  pfx.data.isPrefixOf s.data

/-- The `present` dict comprehension: index destination builds by name,
keeping only names starting with the collection name. -/
def presentMap {P : Type} (name : P → String) (pfx : String)
    (builds : List P) : List (String × P) :=
  builds.foldl
    (fun m b => if strStartsWith (name b) pfx then insertAssoc (name b) b m else m)
    []

/-- `obsolete(package)`: `package.name in present and
present[package.name] >= package`. -/
def obsolete {P : Type} [LinearOrder P] (name : P → String)
    (present : List (String × P)) (package : P) : Bool :=
  match lookupAssoc present (name package) with
  | some b => decide (package ≤ b)
  | none => false

/-- The body of `diff` for one collection item: build the `present` map
from the destination's latest builds, emit the source's latest builds
which match the collection name and are not obsolete. -/
def diff {P : Type} [LinearOrder P] (name : P → String)
    (latest_builds : String → Item P → List P)
    (source destination : String) (scl : Item P) : Item P :=
  let present := presentMap name scl.collection (latest_builds destination scl)
  let missing := (latest_builds source scl).filter
    (fun pkg => strStartsWith (name pkg) scl.collection
      && !(obsolete name present pkg))
  { scl with package_iter := missing }

/-- The `diff` stage over the whole collection stream. -/
def diffStage {P : Type} [LinearOrder P] (name : P → String)
    (latest_builds : String → Item P → List P)
    (source destination : String) (stream : List (Item P)) : List (Item P) :=
  stream.map (diff name latest_builds source destination)

/-! ### The `download` stage (`cli.py` lines 259–278)

The repository service's `download` operation is an external collaborator,
modelled as a function from the per-collection directory and the package
to the resulting local path. -/

/-- The body of `download` for one collection item: compute the
per-collection directory, fetch every package into it, yield the stream
of local paths in place of the packages. -/
def download {P D : Type} (downloadOp : String → P → D)
    (output_dir : String) (scl : Item P) : Item D :=
  let collection_dir := output_dir ++ "/" ++ scl.collection
  { el := scl.el
    collection := scl.collection
    package_iter := scl.package_iter.map (downloadOp collection_dir) }

/-! ### The `build` stage (`cli.py` lines 289–330)

`builder.build(target, pkg)` either returns the built package's metadata
or raises `BuildFailure`; it is modelled as a function into `Except`.
The `failed` accumulator is `defaultdict(set)`: a per-collection set of
failures, an entry created on the first failure of its collection.  The
lazy inner generator is drained by the single consumer before the next
item is pulled, so eager recursion in the same order is faithful. -/

/-- `BuildFailure`: the package that failed and the human-readable
reason. -/
structure BuildFailure (P : Type) where
  package : P
  reason : String
deriving DecidableEq, Repr

/-- `set.add`: insert unless already present. -/
def setInsert {A : Type} [DecidableEq A] (x : A) (s : List A) : List A :=
  if x ∈ s then s else s ++ [x]

/-- The mapping `collection name → set of build failures`. -/
abbrev FailMap (P : Type) : Type := List (String × List (BuildFailure P))

/-- `failed[scl.collection].add(failure)` on a `defaultdict(set)`. -/
def recordFailure {P : Type} [DecidableEq P] (failed : FailMap P)
    (c : String) (f : BuildFailure P) : FailMap P :=
  match lookupAssoc failed c with
  | none => failed ++ [(c, [f])]
  | some s => insertAssoc c (setInsert f s) failed

/-- The inner generator `build_and_filter_failures`: attempt each package,
yield successful results, record failures into the shared `failed` map. -/
def build_and_filter_failures {P : Type} [DecidableEq P]
    (buildOp : String → P → Except (BuildFailure P) P)
    (target c : String) (failed : FailMap P) :
    List P → List P × FailMap P
  | [] => ([], failed)
  | pkg :: rest =>
    match buildOp target pkg with
    | .ok r =>
      let (built, f') := build_and_filter_failures buildOp target c failed rest
      (r :: built, f')
    | .error failure =>
      build_and_filter_failures buildOp target c
        (recordFailure failed c failure) rest

/-- The `build` stage loop over the collection stream, threading the
`failed` accumulator; the destination target is resolved per item via the
alias resolver (the parameter `unaliasTarget`). -/
def buildStage {P : Type} [DecidableEq P]
    (unaliasTarget : Item P → String)
    (buildOp : String → P → Except (BuildFailure P) P)
    (failed : FailMap P) :
    List (Item P) → List (Item P) × FailMap P
  | [] => ([], failed)
  | scl :: rest =>
    let target := unaliasTarget scl
    let (built, f') :=
      build_and_filter_failures buildOp target scl.collection failed
        scl.package_iter
    let (out, f'') := buildStage unaliasTarget buildOp f' rest
    ({ scl with package_iter := built } :: out, f'')

/-- `sorted(fails, key=attrgetter('package'))` compares failures by the
package ordering. -/
def byPackage {P : Type} [LinearOrder P] (a b : BuildFailure P) : Prop :=
  a.package ≤ b.package

instance {P : Type} [LinearOrder P] :
    IsTotal (BuildFailure P) byPackage :=
  ⟨fun a b => le_total a.package b.package⟩

instance {P : Type} [LinearOrder P] :
    IsTrans (BuildFailure P) byPackage :=
  ⟨fun _ _ _ h1 h2 => le_trans h1 h2⟩

instance {P : Type} [LinearOrder P] : DecidableRel (@byPackage P _) :=
  fun a b => inferInstanceAs (Decidable (a.package ≤ b.package))

/-- The readable per-collection failure structure: for each collection,
an ordered mapping from package NEVRA string to reason, built from the
failures sorted by package ordering (`sorted(fails,
key=attrgetter('package'))` followed by `OrderedDict`). -/
def readableFailures {P : Type} [LinearOrder P] (nevra : P → String)
    (failed : FailMap P) : List (String × List (String × String)) :=
  failed.map (fun e =>
    (e.1,
      ((e.2.insertionSort byPackage).map
          (fun f => (nevra f.package, f.reason))).foldl
        (fun m p => insertAssoc p.1 p.2 m) []))

/-- The tail of the `build` command after the stream is drained: if no
failures were recorded, `raise StopIteration()` terminates the generator
normally and no report is emitted (`None`); otherwise the readable
failure structure is dumped. -/
def buildRun {P : Type} [LinearOrder P] [DecidableEq P] (nevra : P → String)
    (unaliasTarget : Item P → String)
    (buildOp : String → P → Except (BuildFailure P) P)
    (stream : List (Item P)) :
    List (Item P) × Option (List (String × List (String × String))) :=
  let (out, failed) := buildStage unaliasTarget buildOp [] stream
  (out, if failed.isEmpty then none else some (readableFailures nevra failed))

/-! ### `CollectionSequence.consume` (`cli.py` lines 54–64)

Fold the final stream into the two-level structure
`el → collection → sorted packages`; `setdefault` keeps an existing
outer entry, and the inner assignment overwrites. -/

/-- One step of `consume`: insert an item's sorted packages under
`(item.el, item.collection)`. -/
def consumeStep {P : Type} [LinearOrder P]
    (structure_ : List (Nat × List (String × List P))) (item : Item P) :
    List (Nat × List (String × List P)) :=
  let sortedPkgs := item.package_iter.insertionSort (· ≤ ·)
  match lookupAssoc structure_ item.el with
  | none => structure_ ++ [(item.el, [(item.collection, sortedPkgs)])]
  | some cmap =>
    insertAssoc item.el (insertAssoc item.collection sortedPkgs cmap) structure_

/-- `CollectionSequence.consume`: fold the whole iterator. -/
def consume {P : Type} [LinearOrder P] (stream : List (Item P)) :
    List (Nat × List (String × List P)) :=
  stream.foldl consumeStep []

/-! ### Service registry
(`rpmrh/configuration/experimental/service.py` lines 29–85)

A constructor takes the remaining configuration entries as keyword
arguments and either returns an instance or raises (type parameter `E`);
descriptor values have type `V`, instances type `I`.  A registered class
is modelled by its `__init__` together with its `getattr`-reachable named
initializers. -/

/-- Errors of the registry operations. `DuplicateError(name)` is raised
by `register`; `AttributeError` by `getattr` on a missing initializer. -/
inductive RegistryError : Type where
  | duplicateError (name : String)
  | attributeError (attrName : String)
deriving DecidableEq, Repr

/-- A class offered for registration: its `__init__`-based constructor
and its named alternative initializers. -/
structure ServiceClass (C : Type) where
  defaultInit : C
  attrs : String → Option C

/-- `register(name, initializer=None, registry=...)` applied to a class:
fails with `DuplicateError` when the name is taken (before touching the
class); otherwise inserts `getattr(cls, initializer)` when a non-empty
initializer name is given, else the class itself. -/
def register {C : Type} (name : String) (initializer : Option String)
    (registry : List (String × C)) (cls : ServiceClass C) :
    Except RegistryError (List (String × C)) :=
  if (lookupAssoc registry name).isSome then
    .error (.duplicateError name)
  else
    match initializer with
    | some a =>
      if a.isEmpty then .ok (insertAssoc name cls.defaultInit registry)
      else
        match cls.attrs a with
        | some c => .ok (insertAssoc name c registry)
        | none => .error (.attributeError a)
    | none => .ok (insertAssoc name cls.defaultInit registry)

/-- Errors observable from `make_instance`: `KeyError('type')` when the
descriptor has no type tag, `KeyError(type_name)` when the tag is not
registered, or whatever the invoked constructor raises. -/
inductive MakeInstanceError (V E : Type) : Type where
  | keyError (key : String)
  | unknownType (tag : V)
  | initializerError (e : E)
deriving DecidableEq, Repr

/-- `make_instance(configuration_map, registry=...)`:
`type_name = configuration_map.pop('type')` mutates the caller's map
(modelled by returning the map alongside the result), then
`registry[type_name](**configuration_map)`.  A missing `'type'` key makes
`pop` raise before any mutation; an unregistered tag raises after the
`pop` already removed the key. -/
def make_instance {V E I : Type} [DecidableEq V]
    (registry : List (V × (List (String × V) → Except E I)))
    (configuration_map : List (String × V)) :
    Except (MakeInstanceError V E) I × List (String × V) :=
  match lookupAssoc configuration_map "type" with
  | none => (.error (.keyError "type"), configuration_map)
  | some type_name =>
    let remaining := eraseKey "type" configuration_map
    match lookupAssoc registry type_name with
    | none => (.error (.unknownType type_name), remaining)
    | some construct =>
      ((construct remaining).mapError .initializerError, remaining)

/-! ### Capability index

Modelled from the spec: the `Index` class of `rpmrh.service.configuration`
(exercised by `tests/service/test_configuration.py` lines 125–146) is not
part of the provided sources; §4.2 of the specification defines its
contract.  `insert(service)` reads the service's declared key-set
attribute (absent attribute modelled as `none`): with no attribute the
service passes through and the index is unchanged; otherwise every
declared key not yet present is bound to the service, and a key already
claimed by a different service raises `DuplicateKeyError`.  `find(key)`
is exact-match lookup, raising on an absent key. -/

/-- Errors of the capability index. -/
inductive IndexError_ : Type where
  | duplicateKeyError (key : String)
  | unresolvedKeyError (key : String)
deriving DecidableEq, Repr

/-- Modelled from the spec: the per-key loop of `Index.insert` over the
declared key set. -/
def insertKeys {S : Type} [DecidableEq S] (svc : S) :
    List String → List (String × S) →
    Except IndexError_ (List (String × S))
  | [], idx => .ok idx
  | k :: rest, idx =>
    match lookupAssoc idx k with
    | none => insertKeys svc rest (insertAssoc k svc idx)
    | some s' =>
      if s' = svc then insertKeys svc rest idx
      else .error (.duplicateKeyError k)

/-- Modelled from the spec: `Index.insert(service)` — a service without
the index's key-set attribute passes through unchanged; otherwise its
declared keys are inserted. -/
def indexInsert {S : Type} [DecidableEq S] (keySet : S → Option (List String))
    (idx : List (String × S)) (svc : S) :
    Except IndexError_ (List (String × S)) :=
  match keySet svc with
  | none => .ok idx
  | some ks => insertKeys svc ks idx

/-- Modelled from the spec: `Index.find(key)` — exact-match lookup,
`UnresolvedKeyError` when absent. -/
def indexFind {S : Type} [DecidableEq S] (idx : List (String × S))
    (k : String) : Except IndexError_ S :=
  match lookupAssoc idx k with
  | some s => .ok s
  | none => .error (.unresolvedKeyError k)

/-! ### Helper lemmas -/

theorem lookupAssoc_append {K V : Type} [DecidableEq K]
    (l l' : List (K × V)) (k : K) :
    lookupAssoc (l ++ l') k =
      match lookupAssoc l k with
      | some v => some v
      | none => lookupAssoc l' k := by
  induction l with
  | nil => simp [lookupAssoc]
  | cons e rest ih =>
    by_cases h : e.1 = k
    · simp [lookupAssoc, h]
    · simp [lookupAssoc, h, ih]

theorem insertAssoc_eq_self {K V : Type} [DecidableEq K]
    {k : K} {v : V} {m : List (K × V)} (h : lookupAssoc m k = some v) :
    insertAssoc k v m = m := by
  induction m with
  | nil => simp [lookupAssoc] at h
  | cons e rest ih =>
    obtain ⟨k1, v1⟩ := e
    by_cases he : k1 = k
    · subst he
      simp [lookupAssoc] at h
      simp [insertAssoc, h]
    · simp [lookupAssoc, he] at h
      simp [insertAssoc, he, ih h]

theorem mem_insertAssoc {K V : Type} [DecidableEq K]
    {k : K} {v : V} {m : List (K × V)} {x : K × V}
    (h : x ∈ insertAssoc k v m) : x = (k, v) ∨ x ∈ m := by
  induction m with
  | nil => simpa [insertAssoc] using h
  | cons e rest ih =>
    by_cases he : e.1 = k
    · simp [insertAssoc, he] at h
      rcases h with h | h
      · exact Or.inl h
      · exact Or.inr (List.mem_cons_of_mem _ h)
    · simp [insertAssoc, he] at h
      rcases h with h | h
      · exact Or.inr (by simp [h])
      · rcases ih h with h' | h'
        · exact Or.inl h'
        · exact Or.inr (List.mem_cons_of_mem _ h')

theorem lookupAssoc_mem {K V : Type} [DecidableEq K]
    {m : List (K × V)} {k : K} {v : V} (h : lookupAssoc m k = some v) :
    (k, v) ∈ m := by
  induction m with
  | nil => simp [lookupAssoc] at h
  | cons e rest ih =>
    by_cases he : e.1 = k
    · simp [lookupAssoc, he] at h
      subst he
      simp [← h]
    · simp [lookupAssoc, he] at h
      exact List.mem_cons_of_mem _ (ih h)

/-! ### Claims C4, C5, C10: the service registry -/

/-- The constructor that `register` would store for a class and an
`initializer` argument: `getattr(cls, initializer)` for a non-empty
initializer name, the class itself otherwise. -/
def constructorOf {C : Type} (cls : ServiceClass C)
    (initializer : Option String) : Option C :=
  match initializer with
  | none => some cls.defaultInit
  | some a => if a.isEmpty then some cls.defaultInit else cls.attrs a

/-- C4: `make_instance` pops the type tag, looks up the constructor
registered under it, and invokes it with exactly the remaining descriptor
entries, returning its result; an unregistered tag yields the key-lookup
error without consulting any constructor, and a constructor's own error
propagates unchanged. -/
theorem claim_C4 {V E I : Type} [DecidableEq V]
    (registry : List (V × (List (String × V) → Except E I)))
    (m : List (String × V)) (t : V)
    (h : lookupAssoc m "type" = some t) :
    (∀ construct, lookupAssoc registry t = some construct →
      make_instance registry m =
        ((construct (eraseKey "type" m)).mapError
            MakeInstanceError.initializerError,
          eraseKey "type" m)) ∧
    (lookupAssoc registry t = none →
      make_instance registry m =
        (.error (.unknownType t), eraseKey "type" m)) ∧
    (∀ construct e, lookupAssoc registry t = some construct →
      construct (eraseKey "type" m) = .error e →
      (make_instance registry m).1 = .error (.initializerError e)) ∧
    (∀ construct i, lookupAssoc registry t = some construct →
      construct (eraseKey "type" m) = .ok i →
      (make_instance registry m).1 = .ok i) := by
  refine ⟨?_, ?_, ?_, ?_⟩
  · intro construct hc
    simp [make_instance, h, hc]
  · intro hc
    simp [make_instance, h, hc]
  · intro construct e hc he
    simp [make_instance, h, hc, he, Except.mapError]
  · intro construct i hc hi
    simp [make_instance, h, hc, hi, Except.mapError]

/-- C5: a first registration of a type tag inserts it mapped to its
constructor (the class itself, or the named initializer attribute), and a
second registration of the same tag fails with the duplicate error,
leaving the existing entry untouched. -/
theorem claim_C5 {C : Type} (T : String) (registry : List (String × C))
    (cls : ServiceClass C) (initializer : Option String) (c : C)
    (h : lookupAssoc registry T = none)
    (hc : constructorOf cls initializer = some c) :
    register T initializer registry cls = .ok (insertAssoc T c registry) ∧
    lookupAssoc (insertAssoc T c registry) T = some c ∧
    (∀ (initializer2 : Option String) (cls2 : ServiceClass C),
      register T initializer2 (insertAssoc T c registry) cls2 =
        .error (.duplicateError T)) := by
  refine ⟨?_, lookupAssoc_insertAssoc_self T c registry, ?_⟩
  · match initializer, hc with
    | none, hc =>
      simp [constructorOf] at hc
      simp [register, h, ← hc]
    | some a, hc =>
      by_cases ha : a.isEmpty
      · simp [constructorOf, ha] at hc
        simp [register, h, ha, ← hc]
      · simp [constructorOf, ha] at hc
        simp [register, h, ha, hc]
  · intro initializer2 cls2
    simp [register, lookupAssoc_insertAssoc_self T c registry]

/-- C10: on an unregistered tag, `make_instance` fails only after having
removed `'type'` from the caller's map; the identical call repeated on
that map fails with the missing-`'type'` key error instead. -/
theorem claim_C10 {V E I : Type} [DecidableEq V]
    (registry : List (V × (List (String × V) → Except E I)))
    (m : List (String × V)) (t : V)
    (h1 : lookupAssoc m "type" = some t)
    (h2 : lookupAssoc registry t = none) :
    make_instance registry m =
      (.error (.unknownType t), eraseKey "type" m) ∧
    lookupAssoc (eraseKey "type" m) "type" = none ∧
    (make_instance registry (eraseKey "type" m)).1 =
      .error (.keyError "type") := by
  refine ⟨by simp [make_instance, h1, h2], lookupAssoc_eraseKey_self _ m, ?_⟩
  simp [make_instance, lookupAssoc_eraseKey_self _ m]

/-! ### Claims C2, C3, C8: the build stage and frame preservation -/

/-- The build results of the packages whose build succeeded, in order. -/
def buildSuccesses {P : Type} (bOp : String → P → Except (BuildFailure P) P)
    (t : String) (pkgs : List P) : List P :=
  pkgs.filterMap (fun p => (bOp t p).toOption)

/-- The failures raised while building the packages, in order. -/
def buildFailuresOf {P : Type} (bOp : String → P → Except (BuildFailure P) P)
    (t : String) (pkgs : List P) : List (BuildFailure P) :=
  pkgs.filterMap (fun p =>
    match bOp t p with
    | .ok _ => none
    | .error f => some f)

/-- The failure set recorded for a collection (empty when absent). -/
def failsAt {P : Type} (failed : FailMap P) (c : String) :
    List (BuildFailure P) :=
  (lookupAssoc failed c).getD []

theorem build_and_filter_failures_fst {P : Type} [DecidableEq P]
    (bOp : String → P → Except (BuildFailure P) P) (t c : String)
    (pkgs : List P) :
    ∀ failed, (build_and_filter_failures bOp t c failed pkgs).1 =
      buildSuccesses bOp t pkgs := by
  induction pkgs with
  | nil => intro failed; simp [build_and_filter_failures, buildSuccesses]
  | cons p rest ih =>
    intro failed
    cases hb : bOp t p with
    | ok r =>
      simp [build_and_filter_failures, hb, ih, buildSuccesses,
        Except.toOption]
    | error f =>
      simp [build_and_filter_failures, hb, ih, buildSuccesses,
        Except.toOption]

theorem buildStage_fst {P : Type} [DecidableEq P]
    (u : Item P → String) (bOp : String → P → Except (BuildFailure P) P)
    (stream : List (Item P)) :
    ∀ failed, (buildStage u bOp failed stream).1 =
      stream.map (fun scl =>
        { scl with
          package_iter := buildSuccesses bOp (u scl) scl.package_iter }) := by
  induction stream with
  | nil => intro failed; simp [buildStage]
  | cons scl rest ih =>
    intro failed
    simp [buildStage, build_and_filter_failures_fst, ih]

theorem mem_setInsert_self {A : Type} [DecidableEq A] (x : A) (s : List A) :
    x ∈ setInsert x s := by
  by_cases h : x ∈ s <;> simp [setInsert, h]

theorem mem_setInsert_of_mem {A : Type} [DecidableEq A] {y : A} {s : List A}
    (x : A) (h : y ∈ s) : y ∈ setInsert x s := by
  by_cases hx : x ∈ s <;> simp [setInsert, hx, h]

theorem mem_failsAt_recordFailure_self {P : Type} [DecidableEq P]
    (failed : FailMap P) (c : String) (f : BuildFailure P) :
    f ∈ failsAt (recordFailure failed c f) c := by
  unfold recordFailure
  cases h : lookupAssoc failed c with
  | none => simp [failsAt, lookupAssoc_append, h, lookupAssoc]
  | some s =>
    simp [failsAt, lookupAssoc_insertAssoc_self, mem_setInsert_self]

theorem mem_failsAt_recordFailure_mono {P : Type} [DecidableEq P]
    {failed : FailMap P} {c : String} {x : BuildFailure P}
    (c' : String) (f : BuildFailure P) (h : x ∈ failsAt failed c) :
    x ∈ failsAt (recordFailure failed c' f) c := by
  unfold recordFailure
  cases h' : lookupAssoc failed c' with
  | none =>
    cases hc : lookupAssoc failed c with
    | none => simp [failsAt, hc] at h
    | some s => simpa [failsAt, lookupAssoc_append, hc] using h
  | some s =>
    by_cases hcc : c = c'
    · subst hcc
      have hx : x ∈ s := by simpa [failsAt, h'] using h
      simpa [failsAt, lookupAssoc_insertAssoc_self] using
        mem_setInsert_of_mem f hx
    · simpa [failsAt, lookupAssoc_insertAssoc_ne _ _ (Ne.symm hcc)] using h

theorem mem_failsAt_bff_mono {P : Type} [DecidableEq P]
    {bOp : String → P → Except (BuildFailure P) P} {t c' c : String}
    {x : BuildFailure P} (pkgs : List P) :
    ∀ {failed : FailMap P}, x ∈ failsAt failed c →
      x ∈ failsAt (build_and_filter_failures bOp t c' failed pkgs).2 c := by
  induction pkgs with
  | nil => intro failed h; simpa [build_and_filter_failures] using h
  | cons p rest ih =>
    intro failed h
    cases hb : bOp t p with
    | ok r => simpa [build_and_filter_failures, hb] using ih h
    | error f =>
      simpa [build_and_filter_failures, hb] using
        ih (mem_failsAt_recordFailure_mono c' f h)

theorem mem_failsAt_buildStage_mono {P : Type} [DecidableEq P]
    {u : Item P → String} {bOp : String → P → Except (BuildFailure P) P}
    {c : String} {x : BuildFailure P} (stream : List (Item P)) :
    ∀ {failed : FailMap P}, x ∈ failsAt failed c →
      x ∈ failsAt (buildStage u bOp failed stream).2 c := by
  induction stream with
  | nil => intro failed h; simpa [buildStage] using h
  | cons scl rest ih =>
    intro failed h
    simpa [buildStage] using ih (mem_failsAt_bff_mono _ h)

theorem mem_failsAt_bff_self {P : Type} [DecidableEq P]
    {bOp : String → P → Except (BuildFailure P) P} {t c : String}
    {f : BuildFailure P} (pkgs : List P) :
    ∀ {failed : FailMap P}, f ∈ buildFailuresOf bOp t pkgs →
      f ∈ failsAt (build_and_filter_failures bOp t c failed pkgs).2 c := by
  induction pkgs with
  | nil => intro failed h; simp [buildFailuresOf] at h
  | cons p rest ih =>
    intro failed h
    cases hb : bOp t p with
    | ok r =>
      have h' : f ∈ buildFailuresOf bOp t rest := by
        simpa [buildFailuresOf, hb] using h
      simpa [build_and_filter_failures, hb] using ih h'
    | error f0 =>
      have h' : f = f0 ∨ f ∈ buildFailuresOf bOp t rest := by
        simpa [buildFailuresOf, hb] using h
      rcases h' with h' | h'
      · subst h'
        simpa [build_and_filter_failures, hb] using
          mem_failsAt_bff_mono rest
            (mem_failsAt_recordFailure_self _ c f)
      · simpa [build_and_filter_failures, hb] using ih h'

theorem mem_failsAt_buildStage_self {P : Type} [DecidableEq P]
    {u : Item P → String} {bOp : String → P → Except (BuildFailure P) P}
    {scl : Item P} {f : BuildFailure P} (stream : List (Item P)) :
    ∀ {failed : FailMap P}, scl ∈ stream →
      f ∈ buildFailuresOf bOp (u scl) scl.package_iter →
      f ∈ failsAt (buildStage u bOp failed stream).2 scl.collection := by
  induction stream with
  | nil => intro failed h; simp at h
  | cons s0 rest ih =>
    intro failed h hf
    rcases List.mem_cons.mp h with h | h
    · subst h
      simpa [buildStage] using
        mem_failsAt_buildStage_mono rest (mem_failsAt_bff_self _ hf)
    · simpa [buildStage] using ih h hf

/-- C2: for every collection item of the build stage, a failing package's
failure is recorded into that collection's failure set while the stage
continues, and the yielded item's package sequence is exactly the results
of the builds that succeeded, in order. -/
theorem claim_C2 {P : Type} [DecidableEq P] (u : Item P → String)
    (bOp : String → P → Except (BuildFailure P) P)
    (stream : List (Item P)) :
    (buildStage u bOp [] stream).1 =
      stream.map (fun scl =>
        { scl with
          package_iter := buildSuccesses bOp (u scl) scl.package_iter }) ∧
    (∀ scl ∈ stream, ∀ f ∈ buildFailuresOf bOp (u scl) scl.package_iter,
      f ∈ failsAt (buildStage u bOp [] stream).2 scl.collection) :=
  ⟨buildStage_fst u bOp stream [],
    fun _scl hscl _f hf => mem_failsAt_buildStage_self stream hscl hf⟩

theorem bff_snd_of_ok {P : Type} [DecidableEq P]
    {bOp : String → P → Except (BuildFailure P) P} {t : String}
    (c : String) (pkgs : List P)
    (h : ∀ p ∈ pkgs, ∃ r, bOp t p = .ok r) :
    ∀ failed, (build_and_filter_failures bOp t c failed pkgs).2 = failed := by
  induction pkgs with
  | nil => intro failed; simp [build_and_filter_failures]
  | cons p rest ih =>
    intro failed
    obtain ⟨r, hr⟩ := h p (by simp)
    have ih' := ih (fun q hq => h q (by simp [hq]))
    simp [build_and_filter_failures, hr, ih']

theorem buildStage_snd_of_ok {P : Type} [DecidableEq P]
    {u : Item P → String} {bOp : String → P → Except (BuildFailure P) P}
    (stream : List (Item P))
    (h : ∀ scl ∈ stream, ∀ p ∈ scl.package_iter, ∃ r, bOp (u scl) p = .ok r) :
    ∀ failed, (buildStage u bOp failed stream).2 = failed := by
  induction stream with
  | nil => intro failed; simp [buildStage]
  | cons scl rest ih =>
    intro failed
    have ih' := ih (fun s hs => h s (by simp [hs]))
    simp [buildStage, bff_snd_of_ok scl.collection _ (h scl (by simp)), ih']

/-- C3: a build-stage run in which every build succeeds emits no failure
report and ends normally; a run with at least one failure emits the
readable failure structure computed from the fully drained stream. -/
theorem claim_C3 {P : Type} [LinearOrder P] [DecidableEq P]
    (nevra : P → String) (u : Item P → String)
    (bOp : String → P → Except (BuildFailure P) P)
    (stream : List (Item P)) :
    ((∀ scl ∈ stream, ∀ p ∈ scl.package_iter, ∃ r, bOp (u scl) p = .ok r) →
      (buildRun nevra u bOp stream).2 = none) ∧
    ((∃ scl ∈ stream, ∃ p ∈ scl.package_iter, ∃ f,
        bOp (u scl) p = .error f) →
      (buildStage u bOp [] stream).2 ≠ [] ∧
        (buildRun nevra u bOp stream).2 =
          some (readableFailures nevra (buildStage u bOp [] stream).2)) := by
  constructor
  · intro h
    simp [buildRun, buildStage_snd_of_ok stream h]
  · rintro ⟨scl, hscl, p, hp, f, hf⟩
    have hmem : f ∈ buildFailuresOf bOp (u scl) scl.package_iter := by
      simp only [buildFailuresOf, List.mem_filterMap]
      exact ⟨p, hp, by simp [hf]⟩
    have hin := @mem_failsAt_buildStage_self P _ u bOp scl f stream [] hscl hmem
    have hne : (buildStage u bOp [] stream).2 ≠ [] := by
      intro he
      rw [he] at hin
      simp [failsAt, lookupAssoc] at hin
    refine ⟨hne, ?_⟩
    simp [buildRun, List.isEmpty_iff, hne]

/-- C8: every pipeline stage (`diff`, `download`, `build`) yields for each
input item a new item with the same EL version and collection name; only
the package sequence is replaced. -/
theorem claim_C8 {P D : Type} [LinearOrder P] [DecidableEq P]
    (name : P → String) (latest_builds : String → Item P → List P)
    (source destination : String) (downloadOp : String → P → D)
    (output_dir : String) (u : Item P → String)
    (bOp : String → P → Except (BuildFailure P) P)
    (failed : FailMap P) (scl : Item P) (stream : List (Item P)) :
    ((diff name latest_builds source destination scl).el = scl.el ∧
      (diff name latest_builds source destination scl).collection =
        scl.collection) ∧
    ((download downloadOp output_dir scl).el = scl.el ∧
      (download downloadOp output_dir scl).collection = scl.collection) ∧
    List.Forall₂ (fun a b => b.el = a.el ∧ b.collection = a.collection)
      stream (buildStage u bOp failed stream).1 := by
  refine ⟨⟨rfl, rfl⟩, ⟨rfl, rfl⟩, ?_⟩
  rw [buildStage_fst]
  rw [List.forall₂_map_right_iff]
  exact List.forall₂_same.mpr (fun x _ => ⟨rfl, rfl⟩)

/-! ### Claim C7: failure de-duplication and the readable structure -/

theorem recordFailure_idem {P : Type} [DecidableEq P]
    (failed : FailMap P) (c : String) (f : BuildFailure P) :
    recordFailure (recordFailure failed c f) c f = recordFailure failed c f := by
  unfold recordFailure
  cases h : lookupAssoc failed c with
  | none =>
    have hl : lookupAssoc (failed ++ [(c, [f])]) c = some [f] := by
      simp [lookupAssoc_append, h, lookupAssoc]
    have hs : setInsert f [f] = [f] := by simp [setInsert]
    simp [hl, hs, insertAssoc_eq_self hl]
  | some s =>
    have hl : lookupAssoc (insertAssoc c (setInsert f s) failed) c =
        some (setInsert f s) := lookupAssoc_insertAssoc_self c _ failed
    have hs : setInsert f (setInsert f s) = setInsert f s := by
      by_cases hf : f ∈ s <;> simp [setInsert, hf]
    simp [hl, hs, insertAssoc_eq_self hl]

theorem insertAssoc_of_not_mem_keys {K V : Type} [DecidableEq K]
    {k : K} (v : V) {m : List (K × V)} (h : k ∉ m.map Prod.fst) :
    insertAssoc k v m = m ++ [(k, v)] := by
  induction m with
  | nil => rfl
  | cons e rest ih =>
    have h1 : e.1 ≠ k := by
      intro hek
      exact h (by simp [← hek])
    have h2 : k ∉ rest.map Prod.fst := by
      intro hk
      exact h (by simp [hk])
    simp [insertAssoc, h1, ih h2]

theorem foldl_insertAssoc_eq_append {K V : Type} [DecidableEq K] :
    ∀ (l acc : List (K × V)), ((acc ++ l).map Prod.fst).Nodup →
      l.foldl (fun m p => insertAssoc p.1 p.2 m) acc = acc ++ l := by
  intro l
  induction l with
  | nil => intro acc _; simp
  | cons p rest ih =>
    intro acc h
    have hp : p.1 ∉ acc.map Prod.fst := by
      intro hc
      rw [List.map_append, List.nodup_append] at h
      exact h.2.2 hc (by simp)
    have step : insertAssoc p.1 p.2 acc = acc ++ [p] :=
      insertAssoc_of_not_mem_keys p.2 hp
    have h' : (((acc ++ [p]) ++ rest).map Prod.fst).Nodup := by
      simpa [List.append_assoc] using h
    calc (p :: rest).foldl (fun m q => insertAssoc q.1 q.2 m) acc
        = rest.foldl (fun m q => insertAssoc q.1 q.2 m) (acc ++ [p]) := by
          simp [step]
      _ = (acc ++ [p]) ++ rest := ih (acc ++ [p]) h'
      _ = acc ++ p :: rest := by simp [List.append_assoc]

/-- C7: duplicate failures for the identical package and reason collapse
(set semantics), and the readable failure structure maps, per collection,
each package identity string to its reason, the entries sorted ascending
by the package ordering. -/
theorem claim_C7 {P : Type} [LinearOrder P] [DecidableEq P]
    (nevra : P → String) (failed : FailMap P) (c : String)
    (f : BuildFailure P)
    (hnd : ∀ e ∈ failed,
      ((e.2.insertionSort byPackage).map (fun g => nevra g.package)).Nodup) :
    recordFailure (recordFailure failed c f) c f = recordFailure failed c f ∧
    readableFailures nevra failed =
      failed.map (fun e =>
        (e.1, (e.2.insertionSort byPackage).map
          (fun g => (nevra g.package, g.reason)))) ∧
    (∀ e ∈ failed,
      List.Sorted byPackage (e.2.insertionSort byPackage)) := by
  refine ⟨recordFailure_idem failed c f, ?_, ?_⟩
  · unfold readableFailures
    apply List.map_congr_left
    intro e he
    have hkeys :
        ((((e.2.insertionSort byPackage).map
            (fun g => (nevra g.package, g.reason))).map Prod.fst)).Nodup := by
      rw [List.map_map]
      exact hnd e he
    have hfold := foldl_insertAssoc_eq_append
      ((e.2.insertionSort byPackage).map (fun g => (nevra g.package, g.reason)))
      [] (by simpa using hkeys)
    simp only [List.nil_append] at hfold
    rw [hfold]
  · intro e _
    exact List.sorted_insertionSort byPackage e.2

/-! ### Claim C9: the capability index -/

theorem insertKeys_lookup_preserved {S : Type} [DecidableEq S]
    {svc : S} {k : String} (ks : List String) :
    ∀ {idx idx' : List (String × S)},
      insertKeys svc ks idx = .ok idx' →
      lookupAssoc idx k = some svc → lookupAssoc idx' k = some svc := by
  induction ks with
  | nil =>
    intro idx idx' hok h
    simp [insertKeys] at hok
    exact hok ▸ h
  | cons k0 rest ih =>
    intro idx idx' hok h
    cases h0 : lookupAssoc idx k0 with
    | none =>
      simp only [insertKeys, h0] at hok
      by_cases hk : k0 = k
      · subst hk
        rw [h0] at h
        exact absurd h (by simp)
      · exact ih hok (by rw [lookupAssoc_insertAssoc_ne _ _ hk]; exact h)
    | some s' =>
      simp only [insertKeys, h0] at hok
      by_cases hs : s' = svc
      · rw [if_pos hs] at hok
        exact ih hok h
      · rw [if_neg hs] at hok
        exact absurd hok (by simp)

theorem insertKeys_ok_lookup {S : Type} [DecidableEq S]
    {svc : S} (ks : List String) :
    ∀ {idx idx' : List (String × S)},
      insertKeys svc ks idx = .ok idx' →
      ∀ k ∈ ks, lookupAssoc idx' k = some svc := by
  induction ks with
  | nil => intro idx idx' _ k hk; simp at hk
  | cons k0 rest ih =>
    intro idx idx' hok k hk
    cases h0 : lookupAssoc idx k0 with
    | none =>
      simp only [insertKeys, h0] at hok
      rcases List.mem_cons.mp hk with hk | hk
      · subst hk
        exact insertKeys_lookup_preserved rest hok
          (lookupAssoc_insertAssoc_self k svc idx)
      · exact ih hok k hk
    | some s' =>
      simp only [insertKeys, h0] at hok
      by_cases hs : s' = svc
      · rw [if_pos hs] at hok
        rcases List.mem_cons.mp hk with hk | hk
        · subst hk
          subst hs
          exact insertKeys_lookup_preserved rest hok h0
        · exact ih hok k hk
      · rw [if_neg hs] at hok
        exact absurd hok (by simp)

theorem insertKeys_conflict {S : Type} [DecidableEq S]
    {svc s' : S} {k : String} (ks : List String) :
    ∀ {idx : List (String × S)},
      lookupAssoc idx k = some s' → s' ≠ svc → k ∈ ks →
      ∃ k', insertKeys svc ks idx = .error (.duplicateKeyError k') := by
  induction ks with
  | nil => intro idx _ _ hk; simp at hk
  | cons k0 rest ih =>
    intro idx h hs hk
    by_cases hk0 : k0 = k
    · subst hk0
      exact ⟨k0, by simp only [insertKeys, h, if_neg hs]⟩
    · have hkrest : k ∈ rest := by
        rcases List.mem_cons.mp hk with hk | hk
        · exact absurd hk.symm hk0
        · exact hk
      cases h0 : lookupAssoc idx k0 with
      | none =>
        have hlook : lookupAssoc (insertAssoc k0 svc idx) k = some s' := by
          rw [lookupAssoc_insertAssoc_ne _ _ hk0]
          exact h
        obtain ⟨k', hk'⟩ := ih hlook hs hkrest
        exact ⟨k', by simp only [insertKeys, h0]; exact hk'⟩
      | some s'' =>
        by_cases hss : s'' = svc
        · obtain ⟨k', hk'⟩ := ih h hs hkrest
          exact ⟨k', by simp only [insertKeys, h0, if_pos hss]; exact hk'⟩
        · exact ⟨k0, by simp only [insertKeys, h0, if_neg hss]⟩

theorem keys_insertAssoc_mem {K V : Type} [DecidableEq K]
    {k x : K} {v : V} {m : List (K × V)}
    (h : x ∈ (insertAssoc k v m).map Prod.fst) :
    x = k ∨ x ∈ m.map Prod.fst := by
  rw [List.mem_map] at h
  obtain ⟨e, he, hx⟩ := h
  rcases mem_insertAssoc he with h' | h'
  · subst h'
    exact Or.inl hx.symm
  · exact Or.inr (hx ▸ List.mem_map_of_mem Prod.fst h')

theorem nodup_keys_insertAssoc {K V : Type} [DecidableEq K]
    (k : K) (v : V) {m : List (K × V)} (h : (m.map Prod.fst).Nodup) :
    ((insertAssoc k v m).map Prod.fst).Nodup := by
  induction m with
  | nil => simp [insertAssoc]
  | cons e rest ih =>
    obtain ⟨k1, v1⟩ := e
    simp only [List.map_cons, List.nodup_cons] at h
    by_cases he : k1 = k
    · subst he
      have hred : insertAssoc k1 v ((k1, v1) :: rest) = (k1, v) :: rest := by
        simp [insertAssoc]
      rw [hred, List.map_cons, List.nodup_cons]
      exact ⟨h.1, h.2⟩
    · have hred : insertAssoc k v ((k1, v1) :: rest) =
          (k1, v1) :: insertAssoc k v rest := by
        simp [insertAssoc, he]
      rw [hred, List.map_cons, List.nodup_cons]
      refine ⟨?_, ih h.2⟩
      intro hc
      rcases keys_insertAssoc_mem hc with h' | h'
      · exact he h'
      · exact h.1 h'

theorem insertKeys_nodup_keys {S : Type} [DecidableEq S]
    {svc : S} (ks : List String) :
    ∀ {idx idx' : List (String × S)},
      (idx.map Prod.fst).Nodup → insertKeys svc ks idx = .ok idx' →
      (idx'.map Prod.fst).Nodup := by
  induction ks with
  | nil =>
    intro idx idx' hnd hok
    simp [insertKeys] at hok
    exact hok ▸ hnd
  | cons k0 rest ih =>
    intro idx idx' hnd hok
    cases h0 : lookupAssoc idx k0 with
    | none =>
      simp only [insertKeys, h0] at hok
      exact ih (nodup_keys_insertAssoc k0 svc hnd) hok
    | some s' =>
      simp only [insertKeys, h0] at hok
      by_cases hs : s' = svc
      · rw [if_pos hs] at hok
        exact ih hnd hok
      · rw [if_neg hs] at hok
        exact absurd hok (by simp)

/-- C9: inserting a service into a capability index binds every key of
its declared key set to that service (resolvable via `find`), fails with
a duplicate-key error when a declared key is already claimed by a
different service, is a no-op for a service without the index's key-set
attribute, and preserves the at-most-one-service-per-key invariant. -/
theorem claim_C9 {S : Type} [DecidableEq S]
    (keySet : S → Option (List String)) (idx idx' : List (String × S))
    (svc : S) (ks : List String) :
    (keySet svc = none → indexInsert keySet idx svc = .ok idx) ∧
    (keySet svc = some ks → indexInsert keySet idx svc = .ok idx' →
      ∀ k ∈ ks, indexFind idx' k = .ok svc) ∧
    (∀ k s', keySet svc = some ks → k ∈ ks →
      lookupAssoc idx k = some s' → s' ≠ svc →
      ∃ k', indexInsert keySet idx svc =
        .error (.duplicateKeyError k')) ∧
    ((idx.map Prod.fst).Nodup → keySet svc = some ks →
      indexInsert keySet idx svc = .ok idx' →
      (idx'.map Prod.fst).Nodup) := by
  refine ⟨?_, ?_, ?_, ?_⟩
  · intro h
    simp [indexInsert, h]
  · intro h hok k hk
    rw [indexInsert, h] at hok
    rw [indexFind, insertKeys_ok_lookup ks hok k hk]
  · intro k s' h hk hl hs
    rw [indexInsert, h]
    exact insertKeys_conflict ks hl hs hk
  · intro hnd h hok
    rw [indexInsert, h] at hok
    exact insertKeys_nodup_keys ks hnd hok


/-! ### Claim C1: the diff obsolescence rule -/

theorem lookupAssoc_presentMap_fold_no_match {P : Type}
    (name : P → String) (pfx : String) {k : String} (l : List P)
    (hno : ∀ b ∈ l, strStartsWith (name b) pfx = true → name b ≠ k) :
    ∀ m, lookupAssoc
        (l.foldl (fun m b =>
          if strStartsWith (name b) pfx then insertAssoc (name b) b m else m) m)
        k = lookupAssoc m k := by
  induction l with
  | nil => intro m; rfl
  | cons a rest ih =>
    intro m
    have ih' := ih (fun b hb => hno b (by simp [hb]))
    by_cases ha : strStartsWith (name a) pfx
    · rw [List.foldl_cons, if_pos ha, ih',
        lookupAssoc_insertAssoc_ne _ _ (hno a (by simp) ha)]
    · rw [List.foldl_cons, if_neg ha, ih']

theorem lookupAssoc_presentMap_fold_self {P : Type}
    (name : P → String) (pfx : String) {b : P} (l : List P)
    (hnd : ((l.filter (fun x => strStartsWith (name x) pfx)).map name).Nodup)
    (hb : b ∈ l) (hsw : strStartsWith (name b) pfx = true) :
    ∀ m, lookupAssoc
        (l.foldl (fun m x =>
          if strStartsWith (name x) pfx then insertAssoc (name x) x m else m) m)
        (name b) = some b := by
  induction l with
  | nil => simp at hb
  | cons a rest ih =>
    intro m
    rcases List.mem_cons.mp hb with hb' | hb'
    · subst hb'
      rw [List.filter_cons_of_pos (by simpa using hsw)] at hnd
      simp only [List.map_cons, List.nodup_cons] at hnd
      have hno : ∀ x ∈ rest, strStartsWith (name x) pfx = true →
          name x ≠ name b := by
        intro x hx hswx hcx
        exact hnd.1 (hcx ▸ List.mem_map_of_mem name
          (List.mem_filter.mpr ⟨hx, hswx⟩))
      rw [List.foldl_cons, if_pos hsw,
        lookupAssoc_presentMap_fold_no_match name pfx rest hno,
        lookupAssoc_insertAssoc_self]
    · have hndrest :
          ((rest.filter (fun x => strStartsWith (name x) pfx)).map name).Nodup := by
        by_cases ha : strStartsWith (name a) pfx
        · rw [List.filter_cons_of_pos (by simpa using ha)] at hnd
          simp only [List.map_cons, List.nodup_cons] at hnd
          exact hnd.2
        · rwa [List.filter_cons_of_neg (by simpa using ha)] at hnd
      have ih' := ih hndrest hb'
      by_cases ha : strStartsWith (name a) pfx
      · rw [List.foldl_cons, if_pos ha, ih']
      · rw [List.foldl_cons, if_neg ha, ih']

theorem lookupAssoc_presentMap_fold_some {P : Type}
    (name : P → String) (pfx : String) {k : String} {b : P} (l : List P) :
    ∀ m, lookupAssoc
        (l.foldl (fun m x =>
          if strStartsWith (name x) pfx then insertAssoc (name x) x m else m) m)
        k = some b →
      (b ∈ l ∧ strStartsWith (name b) pfx = true ∧ name b = k) ∨
        lookupAssoc m k = some b := by
  induction l with
  | nil => intro m h; exact Or.inr h
  | cons a rest ih =>
    intro m h
    rw [List.foldl_cons] at h
    rcases ih _ h with h' | h'
    · exact Or.inl ⟨List.mem_cons_of_mem _ h'.1, h'.2⟩
    · by_cases ha : strStartsWith (name a) pfx
      · rw [if_pos ha] at h'
        by_cases hk : name a = k
        · rw [← hk, lookupAssoc_insertAssoc_self] at h'
          obtain rfl : a = b := by injection h'
          exact Or.inl ⟨by simp, ha, hk⟩
        · rw [lookupAssoc_insertAssoc_ne _ _ hk] at h'
          exact Or.inr h'
      · rw [if_neg ha] at h'
        exact Or.inr h'

theorem obsolete_presentMap_iff {P : Type} [LinearOrder P]
    (name : P → String) (pfx : String) (dest : List P) (p : P)
    (hnd : ((dest.filter (fun x => strStartsWith (name x) pfx)).map name).Nodup) :
    obsolete name (presentMap name pfx dest) p = true ↔
      ∃ b ∈ dest, strStartsWith (name b) pfx = true ∧ name b = name p ∧
        p ≤ b := by
  constructor
  · intro h
    unfold obsolete at h
    cases hl : lookupAssoc (presentMap name pfx dest) (name p) with
    | none => rw [hl] at h; simp at h
    | some b =>
      rw [hl] at h
      simp only [decide_eq_true_eq] at h
      rcases lookupAssoc_presentMap_fold_some name pfx dest [] hl with h' | h'
      · exact ⟨b, h'.1, h'.2.1, h'.2.2, h⟩
      · simp [lookupAssoc] at h'
  · rintro ⟨b, hb, hsw, hnb, hle⟩
    have hl := lookupAssoc_presentMap_fold_self name pfx dest hnd hb hsw []
    rw [hnb] at hl
    unfold obsolete presentMap
    rw [hl]
    simpa using hle

/-- C1: the diff stage emits exactly the source packages matching the
collection name prefix that are not obsolete, where a package is obsolete
iff the destination's prefix-filtered latest builds contain a same-named
package of greater-or-equal version; and for every pair `(a, b)` of equal
name with `b ≤ a`, `b` is obsolete with respect to `a` (equal versions
are treated as satisfied and dropped). -/
theorem claim_C1 {P : Type} [LinearOrder P] (name : P → String)
    (latest_builds : String → Item P → List P)
    (source destination : String) (scl : Item P)
    (hnd : (((latest_builds destination scl).filter
        (fun b => strStartsWith (name b) scl.collection)).map name).Nodup) :
    (∀ p, p ∈ (diff name latest_builds source destination scl).package_iter ↔
      (p ∈ latest_builds source scl ∧
        strStartsWith (name p) scl.collection = true ∧
        ¬ ∃ b ∈ latest_builds destination scl,
          strStartsWith (name b) scl.collection = true ∧
          name b = name p ∧ p ≤ b)) ∧
    (∀ a b : P, name a = name b → b ≤ a →
      obsolete name (insertAssoc (name a) a []) b = true) := by
  constructor
  · intro p
    unfold diff
    simp only [List.mem_filter, Bool.and_eq_true, Bool.not_eq_true']
    constructor
    · rintro ⟨hmem, hsw, hobs⟩
      refine ⟨hmem, hsw, fun hex => ?_⟩
      rw [(obsolete_presentMap_iff name scl.collection _ p hnd).mpr hex]
        at hobs
      simp at hobs
    · rintro ⟨hmem, hsw, hnex⟩
      refine ⟨hmem, hsw, ?_⟩
      cases hob : obsolete name
          (presentMap name scl.collection (latest_builds destination scl)) p
      · rfl
      · exact absurd
          ((obsolete_presentMap_iff name scl.collection _ p hnd).mp hob) hnex
  · intro a b hab hle
    unfold obsolete
    rw [insertAssoc, ← hab, lookupAssoc, if_pos rfl]
    simpa using hle

/-! ### Claim C6: determinism of `CollectionSequence.consume` -/

/-- Two collection items with equal EL and collection whose package
sequences are permutations of one another (service responses received in
different orders). -/
def ItemPerm {P : Type} (a b : Item P) : Prop :=
  b.el = a.el ∧ b.collection = a.collection ∧
    a.package_iter.Perm b.package_iter

theorem insertionSort_eq_of_perm {P : Type} [LinearOrder P]
    {l l' : List P} (h : l.Perm l') :
    l.insertionSort (· ≤ ·) = l'.insertionSort (· ≤ ·) :=
  List.eq_of_perm_of_sorted
    ((List.perm_insertionSort _ l).trans
      (h.trans (List.perm_insertionSort _ l').symm))
    (List.sorted_insertionSort _ l) (List.sorted_insertionSort _ l')

theorem consumeStep_congr {P : Type} [LinearOrder P]
    {a b : Item P} (acc : List (Nat × List (String × List P)))
    (h : ItemPerm a b) : consumeStep acc a = consumeStep acc b := by
  obtain ⟨he, hc, hperm⟩ := h
  simp only [consumeStep, he, hc, insertionSort_eq_of_perm hperm]

theorem foldl_consumeStep_congr {P : Type} [LinearOrder P]
    {s t : List (Item P)} (h : List.Forall₂ ItemPerm s t) :
    ∀ acc, s.foldl consumeStep acc = t.foldl consumeStep acc := by
  induction h with
  | nil => intro acc; rfl
  | cons ha _ ih =>
    intro acc
    rw [List.foldl_cons, List.foldl_cons, consumeStep_congr acc ha]
    exact ih _

theorem consumeStep_inner_sorted {P : Type} [LinearOrder P]
    {acc : List (Nat × List (String × List P))} (item : Item P)
    (h : ∀ e ∈ acc, ∀ ce ∈ e.2, List.Sorted (· ≤ ·) ce.2) :
    ∀ e ∈ consumeStep acc item, ∀ ce ∈ e.2,
      List.Sorted (· ≤ ·) ce.2 := by
  intro e he ce hce
  unfold consumeStep at he
  cases hl : lookupAssoc acc item.el with
  | none =>
    rw [hl] at he
    rcases List.mem_append.mp he with he' | he'
    · exact h e he' ce hce
    · simp only [List.mem_singleton] at he'
      subst he'
      simp only [List.mem_singleton] at hce
      subst hce
      exact List.sorted_insertionSort _ _
  | some cmap =>
    rw [hl] at he
    rcases mem_insertAssoc he with he' | he'
    · subst he'
      rcases mem_insertAssoc hce with hce' | hce'
      · subst hce'
        exact List.sorted_insertionSort _ _
      · exact h _ (lookupAssoc_mem hl) ce hce'
    · exact h e he' ce hce

theorem foldl_consumeStep_inner_sorted {P : Type} [LinearOrder P]
    (stream : List (Item P)) :
    ∀ acc, (∀ e ∈ acc, ∀ ce ∈ e.2, List.Sorted (· ≤ ·) ce.2) →
      ∀ e ∈ stream.foldl consumeStep acc, ∀ ce ∈ e.2,
        List.Sorted (· ≤ ·) ce.2 := by
  induction stream with
  | nil => intro acc h; exact h
  | cons item rest ih =>
    intro acc h
    exact ih _ (consumeStep_inner_sorted item h)

/-- C6: `consume` stores every per-(EL, collection) package sequence
sorted ascending by the package ordering, and two streams whose items
agree up to permutation of their package sequences consume to equal
structures — the report is independent of service response ordering. -/
theorem claim_C6 {P : Type} [LinearOrder P]
    (stream s t : List (Item P)) (hperm : List.Forall₂ ItemPerm s t) :
    (∀ e ∈ consume stream, ∀ ce ∈ e.2, List.Sorted (· ≤ ·) ce.2) ∧
    consume s = consume t :=
  ⟨foldl_consumeStep_inner_sorted stream [] (by simp),
    foldl_consumeStep_congr hperm []⟩

/-! ### Concrete witnesses -/

/-- A builder that fails on package 2 only. -/
def bOpW : String → Nat → Except (BuildFailure Nat) Nat :=
  fun _ p => if p = 2 then .error ⟨2, "deps"⟩ else .ok p

/-- A fixed destination target resolution. -/
def uW : Item Nat → String := fun _ => "sclo-candidate"

/-- A collection item with three packages. -/
def itemW : Item Nat := ⟨7, "rh-python36", [1, 2, 3]⟩

theorem claim_C2_witness :
    ((buildStage uW bOpW [] [itemW]).1 = [⟨7, "rh-python36", [1, 3]⟩] ∧
      (buildStage uW bOpW [] [itemW]).2 = [("rh-python36", [⟨2, "deps"⟩])]) ∧
    itemW ∈ [itemW] ∧
    BuildFailure.mk 2 "deps" ∈
      buildFailuresOf bOpW (uW itemW) itemW.package_iter ∧
    BuildFailure.mk 2 "deps" ∈
      failsAt (buildStage uW bOpW [] [itemW]).2 itemW.collection := by
  refine ⟨⟨by decide, by decide⟩, by decide, by decide, ?_⟩
  exact (claim_C2 uW bOpW [itemW]).2 itemW (by decide) _ (by decide)

theorem claim_C3_witness :
    (∃ scl ∈ [itemW], ∃ p ∈ scl.package_iter, ∃ f,
      bOpW (uW scl) p = .error f) ∧
    (buildStage uW bOpW [] [itemW]).2 ≠ [] ∧
    (buildRun (fun n => toString n) uW bOpW [itemW]).2 =
      some (readableFailures (fun n => toString n)
        (buildStage uW bOpW [] [itemW]).2) := by
  have hx : ∃ scl ∈ [itemW], ∃ p ∈ scl.package_iter, ∃ f,
      bOpW (uW scl) p = .error f :=
    ⟨itemW, by decide, 2, by decide, ⟨2, "deps"⟩, rfl⟩
  have h := (claim_C3 (fun n => toString n) uW bOpW [itemW]).2 hx
  exact ⟨hx, h.1, h.2⟩

/-- A registered constructor counting its keyword arguments. -/
def ctorW : List (String × String) → Except String Nat :=
  fun m => .ok m.length

/-- A one-entry registry. -/
def regW : List (String × (List (String × String) → Except String Nat)) :=
  [("koji", ctorW)]

/-- A service descriptor with a type tag and one parameter. -/
def mW : List (String × String) :=
  [("type", "koji"), ("profile", "default")]

theorem claim_C4_witness :
    lookupAssoc mW "type" = some "koji" ∧
    make_instance regW mW = (Except.ok 1, [("profile", "default")]) := by
  have h : lookupAssoc mW "type" = some "koji" := by decide
  refine ⟨h, ?_⟩
  have hc := (claim_C4 regW mW "koji" h).1 ctorW rfl
  rw [hc]
  rfl

/-- A class with a default constructor and one named initializer. -/
def clsW : ServiceClass Nat :=
  ⟨1, fun a => if a = "from_test" then some 2 else none⟩

theorem claim_C5_witness :
    (lookupAssoc ([] : List (String × Nat)) "test" = none ∧
      constructorOf clsW (some "from_test") = some 2) ∧
    (register "test" (some "from_test") [] clsW =
        .ok (insertAssoc "test" 2 []) ∧
      lookupAssoc (insertAssoc "test" 2 ([] : List (String × Nat))) "test" =
        some 2 ∧
      ∀ (initializer2 : Option String) (cls2 : ServiceClass Nat),
        register "test" initializer2 (insertAssoc "test" 2 []) cls2 =
          .error (.duplicateError "test")) :=
  ⟨⟨rfl, rfl⟩, claim_C5 "test" [] clsW (some "from_test") 2 rfl rfl⟩

/-- Latest builds per group: the source has an extra newer package. -/
def lbW : String → Item Nat → List Nat :=
  fun g _ => if g = "sclo" then [1, 11] else [1]

/-- Collection "1" on EL 7 with an empty incoming package sequence. -/
def sclW : Item Nat := ⟨7, "1", []⟩

theorem claim_C1_witness :
    ((((lbW "cbs" sclW).filter
        (fun b => strStartsWith (toString b) sclW.collection)).map
          (fun n => toString n)).Nodup) ∧
    (diff (fun n => toString n) lbW "sclo" "cbs" sclW).package_iter =
      [11] ∧
    obsolete (fun n => toString n)
      (insertAssoc (toString 1) 1 []) 1 = true := by
  have hnd : ((((lbW "cbs" sclW).filter
      (fun b => strStartsWith (toString b) sclW.collection)).map
        (fun n => toString n)).Nodup) := by decide
  have h := claim_C1 (fun n => toString n) lbW "sclo" "cbs" sclW hnd
  exact ⟨hnd, by decide, h.2 1 1 rfl le_rfl⟩

/-- Two streams whose package sequences are permutations of each other. -/
def s6W : List (Item Nat) := [⟨7, "rh", [3, 1, 2]⟩]

/-- The same stream with packages received in another order. -/
def t6W : List (Item Nat) := [⟨7, "rh", [2, 3, 1]⟩]

theorem claim_C6_witness :
    List.Forall₂ ItemPerm s6W t6W ∧
    consume s6W = consume t6W ∧
    consume s6W = [(7, [("rh", [1, 2, 3])])] := by
  have hp : List.Forall₂ ItemPerm s6W t6W :=
    List.Forall₂.cons ⟨rfl, rfl, by decide⟩ List.Forall₂.nil
  exact ⟨hp, (claim_C6 s6W s6W t6W hp).2, by decide⟩

/-- A failure map with two failures of one collection. -/
def failedW : FailMap Nat := [("rh", [⟨3, "x"⟩, ⟨1, "y"⟩])]

theorem claim_C7_witness :
    (∀ e ∈ failedW,
      ((e.2.insertionSort byPackage).map
        (fun g => toString g.package)).Nodup) ∧
    recordFailure (recordFailure failedW "rh" ⟨3, "x"⟩) "rh" ⟨3, "x"⟩ =
      recordFailure failedW "rh" ⟨3, "x"⟩ ∧
    readableFailures (fun n => toString n) failedW =
      [("rh", [("1", "y"), ("3", "x")])] := by
  have hnd : ∀ e ∈ failedW,
      ((e.2.insertionSort byPackage).map
        (fun g => toString g.package)).Nodup := by decide
  have h := claim_C7 (fun n => toString n) failedW "rh" ⟨3, "x"⟩ hnd
  exact ⟨hnd, h.1, by decide⟩

/-- A key-set attribute matched by service 1 only. -/
def keySetW : Nat → Option (List String) :=
  fun s => if s = 1 then some ["el7-build", "el7-candidate"] else none

theorem claim_C9_witness :
    (keySetW 2 = none ∧ keySetW 1 = some ["el7-build", "el7-candidate"]) ∧
    indexInsert keySetW [] 2 = .ok [] ∧
    indexInsert keySetW [] 1 =
      .ok [("el7-build", 1), ("el7-candidate", 1)] ∧
    (∀ k ∈ ["el7-build", "el7-candidate"],
      indexFind [("el7-build", 1), ("el7-candidate", 1)] k = .ok 1) ∧
    (∃ k', indexInsert keySetW [("el7-build", 9)] 1 =
      .error (.duplicateKeyError k')) := by
  refine ⟨⟨rfl, rfl⟩, (claim_C9 keySetW [] [] 2 []).1 rfl, rfl, ?_, ?_⟩
  · exact (claim_C9 keySetW []
      [("el7-build", 1), ("el7-candidate", 1)] 1
      ["el7-build", "el7-candidate"]).2.1 rfl rfl
  · exact (claim_C9 keySetW [("el7-build", 9)] [] 1
      ["el7-build", "el7-candidate"]).2.2.1 "el7-build" 9 rfl
      (by decide) rfl (by decide)

/-- An empty registry for the mutation-on-failure witness. -/
def reg10W : List (String × (List (String × String) → Except String Nat)) :=
  []

theorem claim_C10_witness :
    (lookupAssoc mW "type" = some "koji" ∧
      lookupAssoc reg10W "koji" = none) ∧
    (make_instance reg10W mW =
        (.error (.unknownType "koji"), eraseKey "type" mW) ∧
      lookupAssoc (eraseKey "type" mW) "type" = none ∧
      (make_instance reg10W (eraseKey "type" mW)).1 =
        .error (.keyError "type")) :=
  ⟨⟨by decide, rfl⟩, claim_C10 reg10W mW "koji" (by decide) rfl⟩

end RpmRH
